import Mathlib

/-!
Verification of the boomchecker query-provenance log and acquisition pipeline.

The development shallowly embeds the two Python modules
`scripts/median-filter/python/prompt_store.py` and
`scripts/median-filter/python/load_audio.py`.  Python strings are Lean
`String`s, Python dynamic JSON values are the `PyVal` type below, fallible
Python code returns `Except`, and the interpreter state touched by the code
(environment variables, the three data files) is passed explicitly.  External
capabilities (the OpenAI client, pytube, yt-dlp) are opaque: each call site
takes the capability's outcome as an explicit argument.  The Python standard
library functions used by the code (`json.loads`, `json.dumps`,
`str.splitlines`, `str.strip`, `hashlib.sha256`) are reimplemented here,
faithful to their documented behaviour on the inputs the code can produce.
-/

/-! ## Python string helpers -/

/-- Code points for which Python `str.isspace` is true (the set stripped by
`str.strip()` with no argument). -/
def pySpaceCodes : List Nat :=
  [0x09, 0x0a, 0x0b, 0x0c, 0x0d, 0x1c, 0x1d, 0x1e, 0x1f, 0x20, 0x85, 0xa0,
   0x1680, 0x2000, 0x2001, 0x2002, 0x2003, 0x2004, 0x2005, 0x2006, 0x2007,
   0x2008, 0x2009, 0x200a, 0x2028, 0x2029, 0x202f, 0x205f, 0x3000]

def pyIsSpace (c : Char) : Bool := pySpaceCodes.contains c.toNat

/-- Python `s.strip()`: remove leading and trailing whitespace. -/
def pyStrip (s : String) : String :=
  (((s.toList.dropWhile pyIsSpace).reverse.dropWhile pyIsSpace).reverse).asString

/-- Python `s.strip(chars)`: remove leading and trailing characters drawn from
`cut`. -/
def pyStripChars (cut : List Char) (s : String) : String :=
  (((s.toList.dropWhile cut.contains).reverse.dropWhile cut.contains).reverse).asString

/-- Code points that Python `str.splitlines` treats as line boundaries. -/
def pyLineBoundaryCodes : List Nat :=
  [0x0a, 0x0b, 0x0c, 0x0d, 0x1c, 0x1d, 0x1e, 0x85, 0x2028, 0x2029]

def pyIsLineBoundary (c : Char) : Bool := pyLineBoundaryCodes.contains c.toNat

/-- Worker for `splitlines`; `cur` is the current line accumulated in reverse. -/
def splitlinesAux : List Char → List Char → List String
  | [], cur => if cur.isEmpty then [] else [cur.reverse.asString]
  | c :: cs, cur =>
    if c = '\r' then
      match cs with
      | c2 :: cs2 =>
        if c2 = '\n' then cur.reverse.asString :: splitlinesAux cs2 []
        else cur.reverse.asString :: splitlinesAux (c2 :: cs2) []
      | [] => [cur.reverse.asString]
    else if pyIsLineBoundary c then cur.reverse.asString :: splitlinesAux cs []
    else splitlinesAux cs (c :: cur)

/-- Python `s.splitlines()`. -/
def splitlines (s : String) : List String := splitlinesAux s.toList []

/-- Python `"\n".join(l)`. -/
def joinNL (l : List String) : String := String.intercalate "\n" l

/-! ## Python JSON values

A Python value as produced by `json.loads`.  To obtain a derived decidable
equality the list and dictionary payloads are mutually inductive types
isomorphic to `List PyVal` and `List (String × PyVal)`.  Floats are kept as
their source lexeme: the code under verification never computes with float
values, it only stores, skips or crashes on them. -/

mutual
inductive PyVal where
  | null
  | bool (b : Bool)
  | int (n : Int)
  | float (lexeme : String)
  | str (s : String)
  | list (xs : PyList)
  | dict (kvs : PyDict)
deriving DecidableEq
inductive PyList where
  | nil
  | cons (v : PyVal) (rest : PyList)
deriving DecidableEq
inductive PyDict where
  | nil
  | cons (k : String) (v : PyVal) (rest : PyDict)
deriving DecidableEq
end

def PyList.ofList : List PyVal → PyList
  | [] => .nil
  | v :: rest => .cons v (PyList.ofList rest)

def PyList.toList : PyList → List PyVal
  | .nil => []
  | .cons v rest => v :: rest.toList

def PyDict.ofList : List (String × PyVal) → PyDict
  | [] => .nil
  | kv :: rest => .cons kv.1 kv.2 (PyDict.ofList rest)

def PyDict.toList : PyDict → List (String × PyVal)
  | .nil => []
  | .cons k v rest => (k, v) :: rest.toList

/-- Python `d.get(k, default)`.  Duplicate keys in the underlying JSON object
resolve to the last occurrence, as in CPython's `json` module. -/
def pyDictGetD (kvs : List (String × PyVal)) (k : String) (dflt : PyVal) : PyVal :=
  match kvs.reverse.find? (fun kv => kv.1 == k) with
  | some kv => kv.2
  | none => dflt

/-- Python dict insertion `d[k] = v`: update in place if the key exists
(keeping its position), otherwise append. -/
def pyDictInsert : List (String × PyVal) → String → PyVal → List (String × PyVal)
  | [], k, v => [(k, v)]
  | kv :: rest, k, v =>
    if kv.1 = k then (k, v) :: rest else kv :: pyDictInsert rest k v

/-- Whether a float lexeme denotes the value zero (the only falsy floats). -/
def floatLexIsZero (lx : String) : Bool :=
  let mant := lx.toList.takeWhile (fun c => c ≠ 'e' && c ≠ 'E')
  mant.all (fun c => c = '0' || c = '.' || c = '-' || c = '+') &&
    mant.any (fun c => c = '0')

/-- Python truthiness of a JSON-derived value. -/
def pyTruthy : PyVal → Bool
  | .null => false
  | .bool b => b
  | .int n => n ≠ 0
  | .float lx => ! floatLexIsZero lx
  | .str s => s ≠ ""
  | .list xs => xs ≠ PyList.nil
  | .dict kvs => kvs ≠ PyDict.nil

/-- Whether a JSON-derived value is hashable in Python (sets reject lists and
dicts with `TypeError`). -/
def pyHashable : PyVal → Bool
  | .list _ => false
  | .dict _ => false
  | _ => true

/-- Python `str(v)` for the scalar values that can reach a formatted string in
this code (unhashable values crash earlier, so the list/dict rendering is
never observed; a simple placeholder stands in for Python's `repr`). -/
def pyStrOf : PyVal → String
  | .null => "None"
  | .bool b => if b then "True" else "False"
  | .int n => toString n
  | .float lx => lx
  | .str s => s
  | .list _ => "<list>"
  | .dict _ => "<dict>"

/-! ## `json.loads`

A fuel-indexed recursive-descent parser for the grammar accepted by CPython's
`json.loads` (JSON plus the `NaN` / `Infinity` / `-Infinity` extensions).
Deviations, none of which the verified code can observe: deeply nested input
exceeding Python's recursion limit, and lone `\uXXXX` surrogates, which map
to U+FFFD because Lean characters are scalar values. -/

def jsonIsWs (c : Char) : Bool := c = ' ' || c = '\t' || c = '\n' || c = '\r'

def skipJsonWs : List Char → List Char
  | [] => []
  | c :: cs => if jsonIsWs c then skipJsonWs cs else c :: cs

def lbraceChar : Char := Char.ofNat 0x7b
def rbraceChar : Char := Char.ofNat 0x7d
def squoteChar : Char := Char.ofNat 0x27

def hexDigitVal (c : Char) : Option Nat :=
  if '0' ≤ c ∧ c ≤ '9' then some (c.toNat - 48)
  else if 'a' ≤ c ∧ c ≤ 'f' then some (c.toNat - 87)
  else if 'A' ≤ c ∧ c ≤ 'F' then some (c.toNat - 55)
  else none

/-- Decode one `\uXXXX` code unit from four hex digits. -/
def hexQuad (h1 h2 h3 h4 : Char) : Option Nat :=
  match hexDigitVal h1, hexDigitVal h2, hexDigitVal h3, hexDigitVal h4 with
  | some a, some b, some c, some d => some (((a * 16 + b) * 16 + c) * 16 + d)
  | _, _, _, _ => none

/-- The character for a decoded BMP code unit; lone surrogates map to U+FFFD
(Lean characters are scalar values, CPython keeps the lone surrogate). -/
def bmpChar (n : Nat) : Char :=
  if 0xd800 ≤ n ∧ n ≤ 0xdfff then Char.ofNat 0xfffd else Char.ofNat n

/-- Parse the body of a JSON string (the opening quote already consumed);
`acc` holds the decoded characters in reverse. -/
def parseJsonStringAux : List Char → List Char → Option (String × List Char)
  | [], _ => none
  | '\\' :: 'u' :: h1 :: h2 :: h3 :: h4 :: x :: y :: h5 :: h6 :: h7 :: h8 :: rest, acc =>
    match hexQuad h1 h2 h3 h4 with
    | none => none
    | some n =>
      if 0xd800 ≤ n ∧ n ≤ 0xdbff ∧ x = '\\' ∧ y = 'u' then
        match hexQuad h5 h6 h7 h8 with
        | some m =>
          if 0xdc00 ≤ m ∧ m ≤ 0xdfff then
            parseJsonStringAux rest
              (Char.ofNat (0x10000 + (n - 0xd800) * 0x400 + (m - 0xdc00)) :: acc)
          else parseJsonStringAux (x :: y :: h5 :: h6 :: h7 :: h8 :: rest) (bmpChar n :: acc)
        | none => parseJsonStringAux (x :: y :: h5 :: h6 :: h7 :: h8 :: rest) (bmpChar n :: acc)
      else parseJsonStringAux (x :: y :: h5 :: h6 :: h7 :: h8 :: rest) (bmpChar n :: acc)
  | '\\' :: 'u' :: h1 :: h2 :: h3 :: h4 :: rest, acc =>
    match hexQuad h1 h2 h3 h4 with
    | none => none
    | some n => parseJsonStringAux rest (bmpChar n :: acc)
  | '\\' :: e :: rest, acc =>
    if e = '"' then parseJsonStringAux rest ('"' :: acc)
    else if e = '\\' then parseJsonStringAux rest ('\\' :: acc)
    else if e = '/' then parseJsonStringAux rest ('/' :: acc)
    else if e = 'b' then parseJsonStringAux rest (Char.ofNat 8 :: acc)
    else if e = 'f' then parseJsonStringAux rest (Char.ofNat 12 :: acc)
    else if e = 'n' then parseJsonStringAux rest ('\n' :: acc)
    else if e = 'r' then parseJsonStringAux rest ('\r' :: acc)
    else if e = 't' then parseJsonStringAux rest ('\t' :: acc)
    else none
  | ['\\'], _ => none
  | c :: cs, acc =>
    if c = '"' then some (acc.reverse.asString, cs)
    else if c.toNat < 0x20 then none
    else parseJsonStringAux cs (c :: acc)

def isDigitChar (c : Char) : Bool := '0' ≤ c && c ≤ '9'

def takeDigits : List Char → (List Char × List Char)
  | [] => ([], [])
  | c :: cs =>
    if isDigitChar c then
      let p := takeDigits cs
      (c :: p.1, p.2)
    else ([], c :: cs)

def digitsToNat (l : List Char) : Nat := l.foldl (fun a c => a * 10 + (c.toNat - 48)) 0

/-- Parse a JSON number (or the `Infinity` / `-Infinity` extension).  The
fraction and exponent parts backtrack when incomplete, exactly as the regular
expression used by CPython's scanner does. -/
def parseJsonNumber (cs : List Char) : Option (PyVal × List Char) :=
  let sgn : Bool × List Char :=
    match cs with
    | c :: rest => if c = '-' then (true, rest) else (false, cs)
    | [] => (false, [])
  let neg := sgn.1
  match sgn.2 with
  | 'I' :: 'n' :: 'f' :: 'i' :: 'n' :: 'i' :: 't' :: 'y' :: rest =>
    some (.float (if neg then "-inf" else "inf"), rest)
  | cs1 =>
    let ip := takeDigits cs1
    let intDigits := ip.1
    if intDigits = [] then none
    else if intDigits.length > 1 ∧ intDigits.headD '0' = '0' then none
    else
      let fp : List Char × List Char :=
        match ip.2 with
        | '.' :: r =>
          let dp := takeDigits r
          if dp.1 = [] then ([], ip.2) else ('.' :: dp.1, dp.2)
        | r => ([], r)
      let ep : List Char × List Char :=
        match fp.2 with
        | e :: r =>
          if e = 'e' ∨ e = 'E' then
            match r with
            | s :: r2 =>
              if s = '+' ∨ s = '-' then
                let dp := takeDigits r2
                if dp.1 = [] then ([], fp.2) else (e :: s :: dp.1, dp.2)
              else
                let dp := takeDigits r
                if dp.1 = [] then ([], fp.2) else (e :: dp.1, dp.2)
            | [] => ([], fp.2)
          else ([], fp.2)
        | [] => ([], fp.2)
      if fp.1 = [] ∧ ep.1 = [] then
        let v : Int := Int.ofNat (digitsToNat intDigits)
        some (.int (if neg then -v else v), ip.2)
      else
        let lex := ((if neg then ['-'] else []) ++ intDigits ++ fp.1 ++ ep.1).asString
        some (.float lex, ep.2)

mutual
/-- Parse one JSON value, skipping leading whitespace. -/
def parseJsonValue : Nat → List Char → Option (PyVal × List Char)
  | 0, _ => none
  | fuel + 1, cs =>
    match skipJsonWs cs with
    | [] => none
    | c :: rest =>
      if c = '"' then
        match parseJsonStringAux rest [] with
        | some p => some (PyVal.str p.1, p.2)
        | none => none
      else if c = lbraceChar then parseJsonMembers fuel (skipJsonWs rest) [] true
      else if c = '[' then parseJsonElements fuel (skipJsonWs rest) [] true
      else
        match c :: rest with
        | 'n' :: 'u' :: 'l' :: 'l' :: r => some (.null, r)
        | 't' :: 'r' :: 'u' :: 'e' :: r => some (.bool true, r)
        | 'f' :: 'a' :: 'l' :: 's' :: 'e' :: r => some (.bool false, r)
        | 'N' :: 'a' :: 'N' :: r => some (.float "nan", r)
        | l => parseJsonNumber l

/-- Parse array elements after `[`; `acc` holds parsed elements in reverse. -/
def parseJsonElements : Nat → List Char → List PyVal → Bool → Option (PyVal × List Char)
  | 0, _, _, _ => none
  | fuel + 1, cs, acc, isFirst =>
    match cs with
    | c :: rest =>
      if c = ']' ∧ isFirst then some (.list (PyList.ofList acc.reverse), rest)
      else
        match parseJsonValue fuel cs with
        | none => none
        | some (v, r) =>
          match skipJsonWs r with
          | ',' :: r2 => parseJsonElements fuel (skipJsonWs r2) (v :: acc) false
          | c2 :: r2 =>
            if c2 = ']' then some (.list (PyList.ofList (v :: acc).reverse), r2)
            else none
          | [] => none
    | [] => none

/-- Parse object members after the opening brace; `acc` holds the dict built
so far by Python insertion order (duplicate keys overwrite in place). -/
def parseJsonMembers : Nat → List Char → List (String × PyVal) → Bool →
    Option (PyVal × List Char)
  | 0, _, _, _ => none
  | fuel + 1, cs, acc, isFirst =>
    match cs with
    | c :: rest =>
      if c = rbraceChar ∧ isFirst then some (.dict (PyDict.ofList acc), rest)
      else if c = '"' then
        match parseJsonStringAux rest [] with
        | none => none
        | some (k, r) =>
          match skipJsonWs r with
          | ':' :: r2 =>
            match parseJsonValue fuel r2 with
            | none => none
            | some (v, r3) =>
              match skipJsonWs r3 with
              | ',' :: r4 => parseJsonMembers fuel (skipJsonWs r4) (pyDictInsert acc k v) false
              | c2 :: r4 =>
                if c2 = rbraceChar then
                  some (.dict (PyDict.ofList (pyDictInsert acc k v)), r4)
                else none
              | [] => none
          | _ => none
      else none
    | [] => none
end

/-- Python `json.loads`: parse a whole string as one JSON document, returning
`none` where CPython raises (`JSONDecodeError` for every syntactically bad
input on the string type). -/
def jsonLoads (s : String) : Option PyVal :=
  match parseJsonValue (2 * s.length + 16) s.toList with
  | some (v, rest) => if skipJsonWs rest = [] then some v else none
  | none => none

/-! ## `prompt_store.parse_queries`

Faithful translation of `parse_queries` (`prompt_store.py` lines 53-76).  The
`isinstance` guard is outside the embedding: the argument is a string by
type.  The JSON branch keeps matching string elements unstripped; the newline
branch strips; the comma branch keeps pieces unstripped. -/

def parse_queries (raw_text : String) : List String :=
  match jsonLoads raw_text with
  | some (PyVal.list xs) =>
    (PyList.toList xs).filterMap (fun v =>
      match v with
      | PyVal.str q => if pyStrip q ≠ "" then some q else none
      | _ => none)
  | _ =>
    let queries := (splitlines raw_text).filterMap (fun l =>
      let t := pyStrip l
      if t ≠ "" then some t else none)
    if queries ≠ [] then queries
    else ((raw_text.replace ", " ",").splitOn ",").filter (fun q => pyStrip q ≠ "")

/-! ## `prompt_store.get_recent_queries`

The reader catches only `json.JSONDecodeError`; every other exception the
loop body can raise escapes.  The embedding therefore returns `Except`:
`attributeErr` models `AttributeError` (`obj.get` on a non-dict) and
`typeErr` models `TypeError` (`reversed` of a non-sequence, or adding an
unhashable value to the `seen` set). -/

inductive PyErr where
  | attributeErr
  | typeErr
deriving DecidableEq

/-- The iterable produced by `obj.get("queries", []) or []` for one parsed
log line, in forward order (the caller iterates it reversed).  A non-dict
`obj` raises `AttributeError`; a truthy non-reversible value raises
`TypeError`; a truthy string iterates its characters and a truthy dict its
keys, as `reversed` does in Python. -/
def getQueriesIterable (obj : PyVal) : Except PyErr (List PyVal) :=
  match obj with
  | .dict kvs =>
    let v := pyDictGetD (PyDict.toList kvs) "queries" PyVal.null
    if pyTruthy v then
      match v with
      | .list xs => .ok (PyList.toList xs)
      | .str s => .ok (s.toList.map (fun c => PyVal.str (String.singleton c)))
      | .dict kvs2 => .ok ((PyDict.toList kvs2).map (fun kv => PyVal.str kv.1))
      | _ => .error .typeErr
    else .ok []
  | _ => .error .attributeErr

/-- The inner `for q in reversed(...)` loop of `get_recent_queries`, run on
the already-reversed iterable.  Returns the updated `seen` and `recent`
accumulators and whether the `len(recent) >= limit` early return fired. -/
def grqScanQ (limit : Int) (seen recent : List PyVal) :
    List PyVal → Except PyErr (List PyVal × List PyVal × Bool)
  | [] => .ok (seen, recent, false)
  | q :: rest =>
    if pyHashable q = false then .error .typeErr
    else if q ∈ seen then grqScanQ limit seen recent rest
    else
      let recent' := recent ++ [q]
      if (recent'.length : Int) ≥ limit then .ok (q :: seen, recent', true)
      else grqScanQ limit (q :: seen) recent' rest

/-- The outer `for line in reversed(lines)` loop of `get_recent_queries`.
A line that fails JSON decoding is skipped; any other error propagates. -/
def grqScanLines (limit : Int) (seen recent : List PyVal) :
    List String → Except PyErr (List PyVal)
  | [] => .ok recent
  | line :: rest =>
    match jsonLoads line with
    | none => grqScanLines limit seen recent rest
    | some obj =>
      match getQueriesIterable obj with
      | .error e => .error e
      | .ok qs =>
        match grqScanQ limit seen recent qs.reverse with
        | .error e => .error e
        | .ok (_, recent', true) => .ok recent'
        | .ok (seen', recent', false) => grqScanLines limit seen' recent' rest

/-- `get_recent_queries` (`prompt_store.py` lines 88-113) as a function of the
content of `openai_responses.jsonl`. -/
def get_recent_queries (logText : String) (limit : Int) : Except PyErr (List PyVal) :=
  grqScanLines limit [] [] (splitlines logText).reverse

/-! ### Specification-side view of the recency scan -/

/-- The queries iterable contributed by one log line, with lines that the
reader would skip or crash on contributing nothing. -/
def recordQueries (line : String) : List PyVal :=
  match jsonLoads line with
  | some obj =>
    match getQueriesIterable obj with
    | .ok qs => qs
    | .error _ => []
  | none => []

/-- All query occurrences of the log ordered most-recent-first: lines from
the end backward, and each line's queries from the end backward. -/
def recencyStream (logText : String) : List PyVal :=
  (((splitlines logText).reverse).map (fun l => (recordQueries l).reverse)).flatten

/-- Deduplication keeping the first occurrence of each value. -/
def ddkfAux (seen : List PyVal) : List PyVal → List PyVal
  | [] => []
  | q :: rest => if q ∈ seen then ddkfAux seen rest else q :: ddkfAux (q :: seen) rest

def dedupKeepFirst (l : List PyVal) : List PyVal := ddkfAux [] l

/-- Reference scan: the recency loop flattened over the whole occurrence
stream, with no record structure and no error cases.  Used to relate
`get_recent_queries` to `dedupKeepFirst`. -/
def refScan (limit : Int) (seen acc : List PyVal) : List PyVal → List PyVal
  | [] => acc
  | q :: rest =>
    if q ∈ seen then refScan limit seen acc rest
    else
      let acc' := acc ++ [q]
      if (acc'.length : Int) ≥ limit then acc'
      else refScan limit (q :: seen) acc' rest

/-! ## `prompt_store.load_prompt`

`load_prompt` (`prompt_store.py` lines 116-132) as a function of the content
of the responses log.  The stored base prompt is the empty string; the only
text the function can produce is the recency block. -/

def load_prompt (logText : String) (include_recent : Bool) : Except PyErr String :=
  if include_recent then
    match get_recent_queries logText 200 with
    | .error e => .error e
    | .ok recent =>
      if recent = [] then .ok ""
      else .ok ("\n\nPreviously suggested queries (do not repeat):\n" ++
        joinNL (recent.map (fun q => "- " ++ pyStrOf q)))
  else .ok ""

/-! ## `hashlib.sha256(...).hexdigest()`

A direct implementation of FIPS 180-4 SHA-256 over the UTF-8 bytes of a
string, with 32-bit words as naturals reduced modulo `2 ^ 32`. -/

def sha256H0 : List Nat :=
  [1779033703, 3144134277, 1013904242, 2773480762,
   1359893119, 2600822924, 528734635, 1541459225]

def sha256K : List Nat :=
  [1116352408, 1899447441, 3049323471, 3921009573, 961987163,
   1508970993, 2453635748, 2870763221, 3624381080, 310598401,
   607225278, 1426881987, 1925078388, 2162078206, 2614888103,
   3248222580, 3835390401, 4022224774, 264347078, 604807628,
   770255983, 1249150122, 1555081692, 1996064986, 2554220882,
   2821834349, 2952996808, 3210313671, 3336571891, 3584528711,
   113926993, 338241895, 666307205, 773529912, 1294757372,
   1396182291, 1695183700, 1986661051, 2177026350, 2456956037,
   2730485921, 2820302411, 3259730800, 3345764771, 3516065817,
   3600352804, 4094571909, 275423344, 430227734, 506948616,
   659060556, 883997877, 958139571, 1322822218, 1537002063,
   1747873779, 1955562222, 2024104815, 2227730452, 2361852424,
   2428436474, 2756734187, 3204031479, 3329325298]

/-- A 32-bit bitwise combination computed arithmetically (the kernel reduces
division, remainder and powers fast, while `Nat.bitwise` is well-founded and
does not reduce). -/
def bitwise32 (f : Bool → Bool → Bool) (a b : Nat) : Nat :=
  (List.range 32).foldl
    (fun acc i => if f (a / 2 ^ i % 2 == 1) (b / 2 ^ i % 2 == 1) then acc + 2 ^ i else acc) 0

def land32 (a b : Nat) : Nat := bitwise32 (fun x y => x && y) a b
def xor32 (a b : Nat) : Nat := bitwise32 (fun x y => x != y) a b
def lor32 (a b : Nat) : Nat := bitwise32 (fun x y => x || y) a b

def rotr32 (n x : Nat) : Nat := lor32 (x / 2 ^ n) (x * 2 ^ (32 - n) % 4294967296)

def smallSigma0 (x : Nat) : Nat := xor32 (rotr32 7 x) (xor32 (rotr32 18 x) (x / 2 ^ 3))
def smallSigma1 (x : Nat) : Nat := xor32 (rotr32 17 x) (xor32 (rotr32 19 x) (x / 2 ^ 10))
def bigSigma0 (x : Nat) : Nat := xor32 (rotr32 2 x) (xor32 (rotr32 13 x) (rotr32 22 x))
def bigSigma1 (x : Nat) : Nat := xor32 (rotr32 6 x) (xor32 (rotr32 11 x) (rotr32 25 x))

/-- `k` bytes of `n` in big-endian order. -/
def beBytes : Nat → Nat → List Nat
  | 0, _ => []
  | k + 1, n => beBytes k (n / 256) ++ [n % 256]

/-- FIPS 180-4 padding: append `0x80`, zeros, and the 64-bit bit length. -/
def sha256Pad (msg : List Nat) : List Nat :=
  let len := msg.length
  let zeros := (64 - ((len + 9) % 64)) % 64
  msg ++ 0x80 :: List.replicate zeros 0 ++ beBytes 8 (len * 8)

/-- Combine bytes into big-endian 32-bit words. -/
def beWords : List Nat → List Nat
  | b0 :: b1 :: b2 :: b3 :: rest => (((b0 * 256 + b1) * 256 + b2) * 256 + b3) :: beWords rest
  | _ => []

/-- Split a list into 64-byte blocks; the fuel is an upper bound on the
number of blocks, so structural recursion suffices and the kernel reduces it. -/
def chunks64Fuel : Nat → List Nat → List (List Nat)
  | 0, _ => []
  | _, [] => []
  | fuel + 1, l => l.take 64 :: chunks64Fuel fuel (l.drop 64)

/-- Split the padded message into 64-byte blocks. -/
def chunks64 (l : List Nat) : List (List Nat) := chunks64Fuel l.length l

/-- One step of the message-schedule extension. -/
def scheduleStep (w : List Nat) : List Nat :=
  let i := w.length
  w ++ [(smallSigma1 (w.getD (i - 2) 0) + w.getD (i - 7) 0 +
         smallSigma0 (w.getD (i - 15) 0) + w.getD (i - 16) 0) % 4294967296]

def buildSchedule (w : List Nat) : Nat → List Nat
  | 0 => w
  | n + 1 => buildSchedule (scheduleStep w) n

/-- One of the 64 compression rounds, on the state `[a, b, c, d, e, f, g, h]`. -/
def compressRound (st : List Nat) (kw : Nat × Nat) : List Nat :=
  match st with
  | [a, b, c, d, e, f, g, h] =>
    let ch := xor32 (land32 e f) (land32 (4294967295 - e) g)
    let maj := xor32 (land32 a b) (xor32 (land32 a c) (land32 b c))
    let t1 := (h + bigSigma1 e + ch + kw.1 + kw.2) % 4294967296
    let t2 := (bigSigma0 a + maj) % 4294967296
    [(t1 + t2) % 4294967296, a, b, c, (d + t1) % 4294967296, e, f, g]
  | _ => st

def compressChunk (h : List Nat) (chunk : List Nat) : List Nat :=
  let ws := buildSchedule (beWords chunk) 48
  let st := (sha256K.zip ws).foldl compressRound h
  (h.zip st).map (fun p => (p.1 + p.2) % 4294967296)

def sha256Words (msg : List Nat) : List Nat :=
  (chunks64 (sha256Pad msg)).foldl compressChunk sha256H0

def hexDigitChar (n : Nat) : Char :=
  if n < 10 then Char.ofNat (48 + n) else Char.ofNat (87 + n)

def wordHex8 (w : Nat) : String :=
  (((List.range 8).reverse).map (fun i => hexDigitChar (w / 16 ^ i % 16))).asString

/-- UTF-8 encoding of one character. -/
def utf8Encode (c : Char) : List Nat :=
  let n := c.toNat
  if n < 0x80 then [n]
  else if n < 0x800 then [0xc0 + n / 64, 0x80 + n % 64]
  else if n < 0x10000 then
    [0xe0 + n / 4096, 0x80 + n / 64 % 64, 0x80 + n % 64]
  else
    [0xf0 + n / 262144, 0x80 + n / 4096 % 64, 0x80 + n / 64 % 64, 0x80 + n % 64]

/-- The UTF-8 bytes of a string (`s.encode("utf-8")`). -/
def strUTF8 (s : String) : List Nat := (s.toList.map utf8Encode).flatten

/-- `hashlib.sha256(s.encode("utf-8")).hexdigest()`. -/
def sha256hex (s : String) : String :=
  String.join ((sha256Words (strUTF8 s)).map wordHex8)

/-! ## Interpreter state: environment and data files

`World` is the state `prompt_store.py` touches: `os.environ`, the module
global `_ENV_LOADED`, and the three files (`python/.env`,
`data/previous_queries.txt`, `data/openai_responses.jsonl`).  A file is
`none` when absent, `some content` otherwise. -/

structure FileSys where
  dotenv : Option String
  previousQueries : Option String
  responsesLog : Option String
deriving DecidableEq

structure World where
  env : List (String × String)
  envLoaded : Bool
  fs : FileSys
deriving DecidableEq

def envGet (env : List (String × String)) (k : String) : Option String :=
  match env.find? (fun kv => kv.1 == k) with
  | some kv => some kv.2
  | none => none

/-- `ensure_files` (`prompt_store.py` lines 78-86): create the data directory
and the two data files when missing, never touching existing content. -/
def ensure_files (fs : FileSys) : FileSys :=
  { fs with
    previousQueries := some (fs.previousQueries.getD ""),
    responsesLog := some (fs.responsesLog.getD "") }

/-- Split at the first `=`, which the caller has checked to exist. -/
def splitFirstEq : List Char → List Char × List Char
  | [] => ([], [])
  | c :: cs =>
    if c = '=' then ([], cs)
    else
      let p := splitFirstEq cs
      (c :: p.1, p.2)

/-- The body of `load_env`'s per-line loop: skip blank, comment and `=`-free
lines; skip empty keys and keys already present in the environment; strip
whitespace and then quote characters from the value. -/
def loadEnvLine (env : List (String × String)) (raw_line : String) : List (String × String) :=
  let line := pyStrip raw_line
  if line = "" ∨ line.startsWith "#" ∨ ¬ line.toList.contains '=' then env
  else
    let p := splitFirstEq line.toList
    let key := pyStrip p.1.asString
    if key = "" ∨ (envGet env key).isSome then env
    else
      let value := pyStripChars ['"', squoteChar] (pyStrip p.2.asString)
      env ++ [(key, value)]

/-- `load_env` (`prompt_store.py` lines 21-50).  A missing or unreadable
`.env` file only sets the loaded flag. -/
def load_env (w : World) : World :=
  if w.envLoaded then w
  else
    match w.fs.dotenv with
    | none => { w with envLoaded := true }
    | some text =>
      { w with env := (splitlines text).foldl loadEnvLine w.env, envLoaded := true }

/-! ## `prompt_store.log_openai_response` -/

structure LogRecord where
  ts : String
  model : String
  prompt_id : String
  raw : String
  queries : List String
  queries_sha256 : Option String
deriving DecidableEq

/-- One character under `json.dumps` default escaping (`ensure_ascii=False`). -/
def jsonEscapeChar (c : Char) : String :=
  if c = '"' then "\\\""
  else if c = '\\' then "\\\\"
  else if c = '\n' then "\\n"
  else if c = '\r' then "\\r"
  else if c = '\t' then "\\t"
  else if c.toNat = 8 then "\\b"
  else if c.toNat = 12 then "\\f"
  else if c.toNat < 0x20 then
    "\\u00" ++ String.singleton (hexDigitChar (c.toNat / 16)) ++
      String.singleton (hexDigitChar (c.toNat % 16))
  else String.singleton c

def jsonDumpsStr (s : String) : String :=
  "\"" ++ String.join (s.toList.map jsonEscapeChar) ++ "\""

/-- `json.dumps(record, ensure_ascii=False)` for the record dict built by
`log_openai_response`, whose keys have a fixed insertion order. -/
def jsonDumpsRecord (r : LogRecord) : String :=
  String.singleton lbraceChar ++
  "\"ts\": " ++ jsonDumpsStr r.ts ++
  ", \"model\": " ++ jsonDumpsStr r.model ++
  ", \"prompt_id\": " ++ jsonDumpsStr r.prompt_id ++
  ", \"raw\": " ++ jsonDumpsStr r.raw ++
  ", \"queries\": [" ++ String.intercalate ", " (r.queries.map jsonDumpsStr) ++ "]" ++
  ", \"queries_sha256\": " ++
    (match r.queries_sha256 with
     | none => "null"
     | some h => jsonDumpsStr h) ++
  String.singleton rbraceChar

/-- The record dict built by `log_openai_response`: `raw` is the
newline-join of the (already parsed) queries, and the hash is over that
join.  `ts` is the `utcnow().isoformat(timespec="seconds")` string. -/
def mkLogRecord (queries : List String) (model prompt_id ts : String) : LogRecord :=
  let raw_text := joinNL queries
  { ts := ts ++ "Z"
    model := model
    prompt_id := prompt_id
    raw := raw_text
    queries := queries
    queries_sha256 := if queries ≠ [] then some (sha256hex raw_text) else none }

/-- `log_openai_response` (`prompt_store.py` lines 135-152): build the record
and append one serialized line to the responses log. -/
def log_openai_response (fs : FileSys) (queries : List String) (model prompt_id ts : String) :
    LogRecord × FileSys :=
  let fs1 := ensure_files fs
  let record := mkLogRecord queries model prompt_id ts
  (record,
   { fs1 with
      responsesLog := some ((fs1.responsesLog.getD "") ++ jsonDumpsRecord record ++ "\n") })

/-! ## `prompt_store.generate_queries` -/

inductive GenErr where
  | configError
  | logReadError (e : PyErr)
  | providerError
  | emptyOutput
deriving DecidableEq

deriving instance DecidableEq for Except

/-- Observable outcome of one `generate_queries` call: the returned value or
raised error, the final state, whether `client.responses.create` was invoked,
the prompt text placed in the request, and the record appended to the log. -/
structure GenOutcome where
  result : Except GenErr (List String)
  world : World
  providerCalled : Bool
  promptSent : Option String
  appendedRecord : Option LogRecord
deriving DecidableEq

/-- `generate_queries` (`prompt_store.py` lines 155-206).  `provider` is the
outcome of the single `client.responses.create` call: `.error` for a raised
transport or provider exception, `.ok s` for a response whose `output_text`
attribute is `s` (an absent attribute behaves as `""`).  `ts` is the
timestamp produced by `datetime.utcnow`. -/
def generate_queries (w : World) (model : String) (include_previous : Bool)
    (provider : Except Unit String) (ts : String) : GenOutcome :=
  let w1 := load_env w
  let w2 : World := { w1 with fs := ensure_files w1.fs }
  let api_key := envGet w2.env "OPENAI_API_KEY"
  if api_key = none ∨ api_key = some "" then
    { result := .error .configError, world := w2, providerCalled := false,
      promptSent := none, appendedRecord := none }
  else
    let prompt_id := pyStrip ((envGet w2.env "OPENAI_PROMPT_ID").getD "")
    match load_prompt (w2.fs.responsesLog.getD "") include_previous with
    | .error e =>
      { result := .error (.logReadError e), world := w2, providerCalled := false,
        promptSent := none, appendedRecord := none }
    | .ok prompt =>
      match provider with
      | .error _ =>
        { result := .error .providerError, world := w2, providerCalled := true,
          promptSent := some prompt, appendedRecord := none }
      | .ok outAttr =>
        let output_text := pyStrip outAttr
        if output_text = "" then
          { result := .error .emptyOutput, world := w2, providerCalled := true,
            promptSent := some prompt, appendedRecord := none }
        else
          let parsed := parse_queries output_text
          let lr := log_openai_response w2.fs parsed model prompt_id ts
          { result := .ok parsed, world := { w2 with fs := lr.2 }, providerCalled := true,
            promptSent := some prompt, appendedRecord := some lr.1 }

/-! ## `load_audio.search_youtube`

`Video` models a pytube search result object: attributes conflate an absent
or `None` attribute with the empty string, which the loop body itself does
(`getattr(..., "")`, truthiness tests).  The external `Search` object is its
stream of result pages; `search.results` grows by one page per
`get_next_results()` and `has_more_results` is "some page remains". -/

structure Video where
  title : String
  watch_url : String
  video_id : String
deriving DecidableEq

structure SearchItem where
  title : String
  url : String
deriving DecidableEq

/-- The dictionary built for one video by the loop body: stripped title with
the `"Untitled video"` fallback, and the watch URL with a fallback built from
the video id. -/
def mkSearchItem (v : Video) : SearchItem :=
  { title := if pyStrip v.title = "" then "Untitled video" else pyStrip v.title
    url :=
      if v.watch_url ≠ "" then v.watch_url
      else if v.video_id ≠ "" then "https://www.youtube.com/watch?v=" ++ v.video_id
      else "" }

/-- The `while len(results) < limit` loop of `search_youtube`: `pending` is
`search.results[consumed:]`, `pages` the pages not yet fetched.  The limit is
checked before each video, combining the `while` condition with the inner
`for` loop's break. -/
def searchLoop (limit : Int) (acc : List SearchItem) (pending : List Video)
    (pages : List (List Video)) : List SearchItem :=
  if (acc.length : Int) ≥ limit then acc
  else
    match pending, pages with
    | [], [] => acc
    | [], p :: ps => searchLoop limit acc p ps
    | v :: rest, pgs => searchLoop limit (acc ++ [mkSearchItem v]) rest pgs
termination_by (pages.length, pending.length)

/-- `search_youtube` (`load_audio.py` lines 43-87).  `available` is whether
the `pytube` import succeeded.  The second component of the result records
whether the external search capability was contacted (a `Search` object
constructed). -/
def search_youtube (query : String) (limit : Int) (available : Bool)
    (pages : List (List Video)) : Except String (List SearchItem × Bool) :=
  if query = "" then .ok ([], false)
  else if ¬ available then
    .error "pytube is not installed. Run pip install pytube inside the devcontainer."
  else if limit ≤ 0 then .ok ([], false)
  else .ok (searchLoop limit [] [] pages, true)

/-! ## `load_audio._demo_search_and_download` acquisition loop

The per-candidate `try` block catches every exception from
`download_audio_segment`, so a candidate's fetch outcome is modelled as
`Except String FetchedMedia` (the exception text, or the decoded audio and
extracted metadata).  Each candidate is paired with the outcome its download
attempt would produce. -/

structure Candidate where
  title : String
  url : String
deriving DecidableEq

structure FetchedMedia where
  audio : String
  meta : List (String × PyVal)
deriving DecidableEq

structure DemoState where
  attempted : List Candidate
  audio_segments : List (String × String)
  metadatas : List (List (String × PyVal))
  downloaded_videos : List Candidate
  savedFiles : List String
  errors : List (String × String)
deriving DecidableEq

def emptyDemoState : DemoState :=
  { attempted := [], audio_segments := [], metadatas := [], downloaded_videos := [],
    savedFiles := [], errors := [] }

/-- The aggregate `RuntimeError` raised when no candidate succeeded: the
candidate count and last error interpolated into the message, and the attempt
history (`errors`) in scope when raising. -/
structure AcqExhausted where
  total : Nat
  lastError : String
  attempts : List (String × String)
deriving DecidableEq

/-- The `for video in videos` loop (lines 203-230): every candidate is
attempted; a success saves the wav and json artifacts keyed by the metadata
id and extends the collections; a failure extends `errors`. -/
def demoLoop (st : DemoState) : List (Candidate × Except String FetchedMedia) → DemoState
  | [] => st
  | (video, outcome) :: rest =>
    match outcome with
    | .error exc =>
      demoLoop { st with
        attempted := st.attempted ++ [video],
        errors := st.errors ++ [(video.title, exc)] } rest
    | .ok fm =>
      let video_id := pyStrOf (pyDictGetD fm.meta "id" (.str "unknown"))
      demoLoop { st with
        attempted := st.attempted ++ [video],
        audio_segments := st.audio_segments ++ [(fm.audio, video_id)],
        metadatas := st.metadatas ++ [fm.meta],
        downloaded_videos := st.downloaded_videos ++ [video],
        savedFiles := st.savedFiles ++ [video_id ++ ".wav", video_id ++ ".json"] } rest

/-- The acquisition section of `_demo_search_and_download` (lines 190-236):
return at once on an empty candidate list, otherwise drain the loop and raise
the aggregate error exactly when no candidate succeeded. -/
def demoAcquire (items : List (Candidate × Except String FetchedMedia)) :
    Except AcqExhausted DemoState :=
  if items = [] then .ok emptyDemoState
  else
    let st := demoLoop emptyDemoState items
    if st.audio_segments = [] then
      .error
        { total := items.length
          lastError :=
            match st.errors.getLast? with
            | some te => te.2
            | none => "unknown"
          attempts := st.errors }
    else .ok st

/-! ### Specification-side views of the acquisition loop -/

/-- The artifacts of the successful candidates, in rank order. -/
def demoSuccesses (items : List (Candidate × Except String FetchedMedia)) :
    List (String × String) :=
  items.filterMap (fun it =>
    match it.2 with
    | .ok fm => some (fm.audio, pyStrOf (pyDictGetD fm.meta "id" (.str "unknown")))
    | .error _ => none)

/-- The `(title, error)` pairs of the failed candidates, in rank order. -/
def demoFailures (items : List (Candidate × Except String FetchedMedia)) :
    List (String × String) :=
  items.filterMap (fun it =>
    match it.2 with
    | .error e => some (it.1.title, e)
    | .ok _ => none)

def exceptIsOk : Except String FetchedMedia → Bool
  | .ok _ => true
  | .error _ => false

def exceptErrText : Except String FetchedMedia → String
  | .error e => e
  | .ok _ => ""

def demoMetadatas (items : List (Candidate × Except String FetchedMedia)) :
    List (List (String × PyVal)) :=
  items.filterMap (fun it =>
    match it.2 with
    | .ok fm => some fm.meta
    | .error _ => none)

/-- The loop state after draining the candidate list, field by field. -/
theorem demoLoop_fields (items : List (Candidate × Except String FetchedMedia))
    (st : DemoState) :
    (demoLoop st items).attempted = st.attempted ++ items.map (fun it => it.1) ∧
    (demoLoop st items).audio_segments = st.audio_segments ++ demoSuccesses items ∧
    (demoLoop st items).metadatas = st.metadatas ++ demoMetadatas items ∧
    (demoLoop st items).errors = st.errors ++ demoFailures items := by
  induction items generalizing st with
  | nil => simp [demoLoop, demoSuccesses, demoMetadatas, demoFailures]
  | cons it rest ih =>
    obtain ⟨video, outcome⟩ := it
    cases outcome with
    | error e =>
      have h := ih ({ st with
        attempted := st.attempted ++ [video],
        errors := st.errors ++ [(video.title, e)] })
      simp only [demoLoop, demoSuccesses, demoMetadatas, demoFailures,
        List.filterMap_cons, List.map_cons] at h ⊢
      simp_all [List.append_assoc]
    | ok fm =>
      have h := ih ({ st with
        attempted := st.attempted ++ [video],
        audio_segments := st.audio_segments ++
          [(fm.audio, pyStrOf (pyDictGetD fm.meta "id" (.str "unknown")))],
        metadatas := st.metadatas ++ [fm.meta],
        downloaded_videos := st.downloaded_videos ++ [video],
        savedFiles := st.savedFiles ++
          [pyStrOf (pyDictGetD fm.meta "id" (.str "unknown")) ++ ".wav",
           pyStrOf (pyDictGetD fm.meta "id" (.str "unknown")) ++ ".json"] })
      simp only [demoLoop, demoSuccesses, demoMetadatas, demoFailures,
        List.filterMap_cons, List.map_cons] at h ⊢
      simp_all [List.append_assoc]

/-- When every candidate fails, the failure list is the title-error pair of
every candidate in order. -/
theorem demoFailures_all_fail (items : List (Candidate × Except String FetchedMedia)) :
    (∀ it ∈ items, exceptIsOk it.2 = false) →
    demoFailures items = items.map (fun it => (it.1.title, exceptErrText it.2)) := by
  induction items with
  | nil => intro _; simp [demoFailures]
  | cons it rest ih =>
    intro hall
    obtain ⟨video, outcome⟩ := it
    cases outcome with
    | error e =>
      have htl := ih (fun x hx => hall x (List.mem_cons_of_mem _ hx))
      simp [demoFailures, List.filterMap_cons, exceptErrText] at htl ⊢
      exact htl
    | ok fm => exact absurd (hall _ (List.mem_cons_self _ _)) (by simp [exceptIsOk])

/-- When every candidate fails, no artifact is collected. -/
theorem demoSuccesses_all_fail (items : List (Candidate × Except String FetchedMedia)) :
    (∀ it ∈ items, exceptIsOk it.2 = false) → demoSuccesses items = [] := by
  induction items with
  | nil => intro _; simp [demoSuccesses]
  | cons it rest ih =>
    intro hall
    obtain ⟨video, outcome⟩ := it
    cases outcome with
    | error e =>
      have htl := ih (fun x hx => hall x (List.mem_cons_of_mem _ hx))
      simp [demoSuccesses, List.filterMap_cons] at htl ⊢
      exact htl
    | ok fm => exact absurd (hall _ (List.mem_cons_self _ _)) (by simp [exceptIsOk])

/-- Concrete candidate list for the C1 claim: the first candidate fails and
the second and third succeed. -/
def c1Items : List (Candidate × Except String FetchedMedia) :=
  [(⟨"t1", "u1"⟩, .error "boom1"),
   (⟨"t2", "u2"⟩, .ok ⟨"audio2", [("id", PyVal.str "v2")]⟩),
   (⟨"t3", "u3"⟩, .ok ⟨"audio3", [("id", PyVal.str "v3")]⟩)]

/-- C1 counterexample: on candidates [fails, succeeds, succeeds] the loop
still attempts the third candidate after the second already succeeded, and
collects and saves two artifacts rather than returning only the first
success, so the first-success policy stated by the claim does not hold of
this code. -/
theorem c1_counterexample :
    demoAcquire c1Items =
    .ok
      { attempted := [⟨"t1", "u1"⟩, ⟨"t2", "u2"⟩, ⟨"t3", "u3"⟩]
        audio_segments := [("audio2", "v2"), ("audio3", "v3")]
        metadatas := [[("id", PyVal.str "v2")], [("id", PyVal.str "v3")]]
        downloaded_videos := [⟨"t2", "u2"⟩, ⟨"t3", "u3"⟩]
        savedFiles := ["v2.wav", "v2.json", "v3.wav", "v3.json"]
        errors := [("t1", "boom1")] } := by
  decide

/-- C1 (amended): when at least one candidate's fetch succeeds, the loop
raises no aggregate error, but it attempts every candidate (not only up to
the first success) and collects the artifacts of all succeeding candidates
in rank order, the first succeeding candidate's artifact first. -/
theorem c1_theorem (items : List (Candidate × Except String FetchedMedia))
    (h : ∃ it ∈ items, exceptIsOk it.2 = true) :
    ∃ st, demoAcquire items = .ok st ∧
      st.attempted = items.map (fun it => it.1) ∧
      st.audio_segments = demoSuccesses items ∧
      st.metadatas = demoMetadatas items ∧
      st.audio_segments ≠ [] := by
  obtain ⟨it0, hmem, hok⟩ := h
  have hne : items ≠ [] := by
    intro hcontra
    rw [hcontra] at hmem
    exact absurd hmem (List.not_mem_nil it0)
  have hflds := demoLoop_fields items emptyDemoState
  have hsne : demoSuccesses items ≠ [] := by
    intro hcontra
    have := List.filterMap_eq_nil_iff.mp hcontra it0 hmem
    obtain ⟨v, o⟩ := it0
    cases o with
    | ok fm => simp at this
    | error e => simp [exceptIsOk] at hok
  refine ⟨demoLoop emptyDemoState items, ?_, ?_, ?_, ?_, ?_⟩
  · simp only [demoAcquire, if_neg hne]
    rw [if_neg]
    rw [hflds.2.1]
    simpa [emptyDemoState] using hsne
  · simpa [emptyDemoState] using hflds.1
  · simpa [emptyDemoState] using hflds.2.1
  · simpa [emptyDemoState] using hflds.2.2.1
  · rw [hflds.2.1]; simpa [emptyDemoState] using hsne

/-- C1 witness: the amended theorem applied to the concrete candidate list. -/
theorem c1_witness :
    (∃ it ∈ c1Items, exceptIsOk it.2 = true) ∧
    (∃ st, demoAcquire c1Items = .ok st ∧
      st.attempted = c1Items.map (fun it => it.1) ∧
      st.audio_segments = demoSuccesses c1Items ∧
      st.metadatas = demoMetadatas c1Items ∧
      st.audio_segments ≠ []) :=
  ⟨⟨(⟨"t2", "u2"⟩, .ok ⟨"audio2", [("id", PyVal.str "v2")]⟩), by decide, by decide⟩,
   c1_theorem c1Items
     ⟨(⟨"t2", "u2"⟩, .ok ⟨"audio2", [("id", PyVal.str "v2")]⟩), by decide, by decide⟩⟩

/-- C6: on a non-empty candidate list whose every fetch fails, the loop ends
in the single aggregate failure: its attempt history has one `(title, error)`
entry per candidate in order (so its length equals the number of
candidates), its reported last error is the final candidate's error, and the
loop attempted every candidate rather than aborting early. -/
theorem c6_theorem (items : List (Candidate × Except String FetchedMedia))
    (hne : items ≠ []) (hall : ∀ it ∈ items, exceptIsOk it.2 = false) :
    ∃ fail, demoAcquire items = .error fail ∧
      fail.attempts = items.map (fun it => (it.1.title, exceptErrText it.2)) ∧
      fail.attempts.length = items.length ∧
      fail.total = items.length ∧
      (∃ lastIt, items.getLast? = some lastIt ∧ fail.lastError = exceptErrText lastIt.2) ∧
      (demoLoop emptyDemoState items).attempted = items.map (fun it => it.1) := by
  have hflds := demoLoop_fields items emptyDemoState
  have hfail := demoFailures_all_fail items hall
  have hsucc := demoSuccesses_all_fail items hall
  have hsegs : (demoLoop emptyDemoState items).audio_segments = [] := by
    rw [hflds.2.1, hsucc]; simp [emptyDemoState]
  have herrs : (demoLoop emptyDemoState items).errors =
      items.map (fun it => (it.1.title, exceptErrText it.2)) := by
    rw [hflds.2.2.2, hfail]; simp [emptyDemoState]
  refine
    ⟨{ total := items.length
       lastError :=
         match (demoLoop emptyDemoState items).errors.getLast? with
         | some te => te.2
         | none => "unknown"
       attempts := (demoLoop emptyDemoState items).errors }, ?_, ?_, ?_, rfl, ?_, ?_⟩
  · simp only [demoAcquire, if_neg hne]
    rw [if_pos hsegs]
  · exact herrs
  · rw [herrs, List.length_map]
  · refine ⟨items.getLast hne, List.getLast?_eq_getLast items hne, ?_⟩
    rw [herrs, List.getLast?_map]
    rw [List.getLast?_eq_getLast items hne]
    rfl
  · simpa [emptyDemoState] using hflds.1

/-- Concrete candidate list for the C6 claim: both candidates fail. -/
def c6Items : List (Candidate × Except String FetchedMedia) :=
  [(⟨"t1", "u1"⟩, .error "boom1"), (⟨"t2", "u2"⟩, .error "boom2")]

/-- C6 witness: the theorem applied to two concrete failing candidates. -/
theorem c6_witness :
    (c6Items ≠ [] ∧ ∀ it ∈ c6Items, exceptIsOk it.2 = false) ∧
    (∃ fail, demoAcquire c6Items = .error fail ∧
      fail.attempts = c6Items.map (fun it => (it.1.title, exceptErrText it.2)) ∧
      fail.attempts.length = c6Items.length ∧
      fail.total = c6Items.length ∧
      (∃ lastIt, c6Items.getLast? = some lastIt ∧ fail.lastError = exceptErrText lastIt.2) ∧
      (demoLoop emptyDemoState c6Items).attempted = c6Items.map (fun it => it.1)) :=
  ⟨⟨by decide, by decide⟩, c6_theorem c6Items (by decide) (by decide)⟩

/-- C2: the claim that reading the log never raises is contradicted by the
code: only `json.JSONDecodeError` is caught, so a log consisting of the
single line `5` — valid JSON that is not an object — raises
`AttributeError` at `obj.get("queries", ...)` instead of being skipped. -/
theorem c2_theorem : get_recent_queries "5" 200 = .error .attributeErr := by decide


theorem toList_asString (l : List Char) : (List.asString l).toList = l := rfl

theorem data_asString (l : List Char) : (List.asString l).data = l := rfl

/-- A string strips to empty exactly when all its characters are whitespace. -/
theorem pyStrip_eq_empty_iff (s : String) :
    pyStrip s = "" ↔ ∀ c ∈ s.toList, pyIsSpace c = true := by
  constructor
  · intro h c hc
    have h0 : ((s.toList.dropWhile pyIsSpace).reverse.dropWhile pyIsSpace).reverse = [] := by
      have := congrArg String.toList h
      simpa [pyStrip, toList_asString, data_asString] using this
    have h2 : (s.toList.dropWhile pyIsSpace).reverse.dropWhile pyIsSpace = [] := by
      have := congrArg List.reverse h0
      simpa using this
    have hall2 : ∀ x ∈ (s.toList.dropWhile pyIsSpace).reverse, pyIsSpace x = true :=
      List.dropWhile_eq_nil_iff.mp h2
    have hsplit := List.takeWhile_append_dropWhile pyIsSpace s.toList
    rw [← hsplit] at hc
    rcases List.mem_append.mp hc with htk | hdr
    · exact List.mem_takeWhile_imp htk
    · exact hall2 c (List.mem_reverse.mpr hdr)
  · intro h
    have h1 : s.toList.dropWhile pyIsSpace = [] := List.dropWhile_eq_nil_iff.mpr h
    unfold pyStrip
    rw [h1]
    rfl

/-- Line-boundary characters are whitespace characters. -/
theorem boundary_is_space (c : Char) (h : pyIsLineBoundary c = true) : pyIsSpace c = true := by
  have hmem : c.toNat ∈ pyLineBoundaryCodes := List.mem_of_elem_eq_true h
  have hsp : c.toNat ∈ pySpaceCodes := by
    simp only [pyLineBoundaryCodes, List.mem_cons, List.not_mem_nil, or_false] at hmem
    simp only [pySpaceCodes, List.mem_cons]
    rcases hmem with h | h | h | h | h | h | h | h | h | h <;> simp [h]
  simpa [pyIsSpace, List.contains] using List.elem_eq_true_of_mem hsp

/-- Every character of the input is either inside one of the produced lines
or is a line-boundary character. -/
theorem splitlinesAux_chars (cs cur : List Char) (c : Char) :
    c ∈ cs ∨ c ∈ cur →
    (∃ l ∈ splitlinesAux cs cur, c ∈ l.toList) ∨ pyIsLineBoundary c = true := by
  induction cs, cur using splitlinesAux.induct with
  | case1 cur hemp =>
    intro hc
    rcases hc with hc | hc
    · exact absurd hc (List.not_mem_nil c)
    · rw [List.isEmpty_iff] at hemp
      rw [hemp] at hc
      exact absurd hc (List.not_mem_nil c)
  | case2 cur hemp =>
    intro hc
    rcases hc with hc | hc
    · exact absurd hc (List.not_mem_nil c)
    · left
      refine ⟨cur.reverse.asString, ?_, ?_⟩
      · simp [splitlinesAux, hemp]
      · rw [toList_asString]; exact List.mem_reverse.mpr hc
  | case3 cur cs2 ih =>
    intro hc
    have hred : splitlinesAux ('\x0d' :: '\n' :: cs2) cur =
        cur.reverse.asString :: splitlinesAux cs2 [] := by
      simp [splitlinesAux]
    rw [hred]
    rcases hc with hc | hc
    · rcases List.mem_cons.mp hc with hc | hc
      · right; rw [hc]; decide
      · rcases List.mem_cons.mp hc with hc | hc
        · right; rw [hc]; decide
        · rcases ih (Or.inl hc) with ⟨l, hl, hcl⟩ | hb
          · exact Or.inl ⟨l, List.mem_cons_of_mem _ hl, hcl⟩
          · exact Or.inr hb
    · left
      exact ⟨cur.reverse.asString, List.mem_cons_self _ _,
        by rw [toList_asString]; exact List.mem_reverse.mpr hc⟩
  | case4 cur c2 cs2 hne ih =>
    intro hc
    have hred : splitlinesAux ('\x0d' :: c2 :: cs2) cur =
        cur.reverse.asString :: splitlinesAux (c2 :: cs2) [] := by
      simp [splitlinesAux, hne]
    rw [hred]
    rcases hc with hc | hc
    · rcases List.mem_cons.mp hc with hc | hc
      · right; rw [hc]; decide
      · rcases ih (Or.inl hc) with ⟨l, hl, hcl⟩ | hb
        · exact Or.inl ⟨l, List.mem_cons_of_mem _ hl, hcl⟩
        · exact Or.inr hb
    · left
      exact ⟨cur.reverse.asString, List.mem_cons_self _ _,
        by rw [toList_asString]; exact List.mem_reverse.mpr hc⟩
  | case5 cur =>
    intro hc
    have hred : splitlinesAux ['\x0d'] cur = [cur.reverse.asString] := by
      simp [splitlinesAux]
    rw [hred]
    rcases hc with hc | hc
    · rcases List.mem_cons.mp hc with hc | hc
      · right; rw [hc]; decide
      · exact absurd hc (List.not_mem_nil c)
    · left
      exact ⟨cur.reverse.asString, List.mem_cons_self _ _,
        by rw [toList_asString]; exact List.mem_reverse.mpr hc⟩
  | case6 c1 cs1 cur hne hb ih =>
    intro hc
    have hred : splitlinesAux (c1 :: cs1) cur =
        cur.reverse.asString :: splitlinesAux cs1 [] := by
      rw [splitlinesAux.eq_def]
      simp [hne, hb]
    rw [hred]
    rcases hc with hc | hc
    · rcases List.mem_cons.mp hc with hc | hc
      · right; rw [hc]; exact hb
      · rcases ih (Or.inl hc) with ⟨l, hl, hcl⟩ | hbc
        · exact Or.inl ⟨l, List.mem_cons_of_mem _ hl, hcl⟩
        · exact Or.inr hbc
    · left
      exact ⟨cur.reverse.asString, List.mem_cons_self _ _,
        by rw [toList_asString]; exact List.mem_reverse.mpr hc⟩
  | case7 c1 cs1 cur hne hnb ih =>
    intro hc
    have hred : splitlinesAux (c1 :: cs1) cur = splitlinesAux cs1 (c1 :: cur) := by
      rw [splitlinesAux.eq_def]
      simp [hne, hnb]
    rw [hred]
    rcases hc with hc | hc
    · rcases List.mem_cons.mp hc with hc | hc
      · exact ih (Or.inr (by simp [hc]))
      · exact ih (Or.inl hc)
    · exact ih (Or.inr (List.mem_cons_of_mem _ hc))

/-- When every produced line strips to empty, the whole string strips to
empty (line boundaries are themselves whitespace). -/
theorem allLines_space (s : String)
    (h : ∀ l ∈ splitlines s, pyStrip l = "") : pyStrip s = "" := by
  rw [pyStrip_eq_empty_iff]
  intro c hc
  rcases splitlinesAux_chars s.toList [] c (Or.inl hc) with ⟨l, hl, hcl⟩ | hb
  · exact (pyStrip_eq_empty_iff l).mp (h l hl) c hcl
  · exact boundary_is_space c hb

/-- If the newline strategy of `parse_queries` produced nothing, the input is
all whitespace. -/
theorem c5_lines_empty (s : String)
    (hq : (splitlines s).filterMap
      (fun l => if pyStrip l ≠ "" then some (pyStrip l) else none) = []) :
    pyStrip s = "" := by
  apply allLines_space
  intro l hl
  have h := List.filterMap_eq_nil_iff.mp hq l hl
  by_cases hpl : pyStrip l = ""
  · exact hpl
  · simp [hpl] at h

/-- The non-JSON branch of `parse_queries` returns `[]` only on all-whitespace
input. -/
theorem c5_fallback (s : String)
    (h : (if ((splitlines s).filterMap
            (fun l => if pyStrip l ≠ "" then some (pyStrip l) else none)) ≠ [] then
            (splitlines s).filterMap
              (fun l => if pyStrip l ≠ "" then some (pyStrip l) else none)
          else ((s.replace ", " ",").splitOn ",").filter (fun q => pyStrip q ≠ "")) = []) :
    pyStrip s = "" := by
  by_cases hq : (splitlines s).filterMap
      (fun l => if pyStrip l ≠ "" then some (pyStrip l) else none) = []
  · exact c5_lines_empty s hq
  · rw [if_pos hq] at h
    exact absurd h hq

/-- C5 counterexample: the input `"[]"` contains non-whitespace characters
yet `parse_queries` returns the empty sequence for it (the JSON strategy
succeeds with an empty array), so "empty output only on empty or whitespace
input" is false of the code. -/
theorem c5_counterexample : parse_queries "[]" = [] ∧ pyStrip "[]" ≠ "" := by decide

/-- C5 (amended): `parse_queries` returns the empty sequence only when the
input is empty or whitespace, or when the input parses as a JSON array none
of whose string elements has non-whitespace content. -/
theorem c5_theorem (s : String) (h : parse_queries s = []) :
    pyStrip s = "" ∨
      ∃ xs, jsonLoads s = some (PyVal.list xs) ∧
        ∀ q : String, PyVal.str q ∈ PyList.toList xs → pyStrip q = "" := by
  unfold parse_queries at h
  cases hjl : jsonLoads s with
  | none =>
    rw [hjl] at h
    exact Or.inl (c5_fallback s h)
  | some v =>
    rw [hjl] at h
    cases v with
    | list xs =>
      right
      refine ⟨xs, rfl, ?_⟩
      intro q hq
      have h2 := List.filterMap_eq_nil_iff.mp h _ hq
      by_cases hql : pyStrip q = ""
      · exact hql
      · simp [hql] at h2
    | null => exact Or.inl (c5_fallback s h)
    | bool b => exact Or.inl (c5_fallback s h)
    | int n => exact Or.inl (c5_fallback s h)
    | float lx => exact Or.inl (c5_fallback s h)
    | str t => exact Or.inl (c5_fallback s h)
    | dict kvs => exact Or.inl (c5_fallback s h)

/-- C5 witness: the amended theorem applied to the input `"[]"`. -/
theorem c5_witness :
    parse_queries "[]" = [] ∧
    (pyStrip "[]" = "" ∨
      ∃ xs, jsonLoads "[]" = some (PyVal.list xs) ∧
        ∀ q : String, PyVal.str q ∈ PyList.toList xs → pyStrip q = "") :=
  ⟨by decide, c5_theorem "[]" (by decide)⟩

/-- C8: when the environment after the `.env` merge lacks `OPENAI_API_KEY`
(or binds it to the empty string, which is equally falsy), `generate_queries`
raises the configuration error before any provider interaction, appends no
record, and leaves the files unchanged apart from creating missing empty
ones. -/
theorem c8_theorem (w : World) (model : String) (include_previous : Bool)
    (provider : Except Unit String) (ts : String)
    (h : envGet (load_env w).env "OPENAI_API_KEY" = none ∨
         envGet (load_env w).env "OPENAI_API_KEY" = some "") :
    (generate_queries w model include_previous provider ts).result = .error .configError ∧
    (generate_queries w model include_previous provider ts).providerCalled = false ∧
    (generate_queries w model include_previous provider ts).appendedRecord = none ∧
    (generate_queries w model include_previous provider ts).world.fs =
      ensure_files (load_env w).fs := by
  simp only [generate_queries]
  rw [if_pos h]
  exact ⟨rfl, rfl, rfl, rfl⟩

/-- C8 witness: the theorem applied to a world with an empty environment and
no `.env` file. -/
theorem c8_witness :
    (envGet (load_env ⟨[], false, ⟨none, none, none⟩⟩).env "OPENAI_API_KEY" = none ∨
     envGet (load_env ⟨[], false, ⟨none, none, none⟩⟩).env "OPENAI_API_KEY" = some "") ∧
    ((generate_queries ⟨[], false, ⟨none, none, none⟩⟩ "m" true (.ok "x") "T").result =
        .error .configError ∧
      (generate_queries ⟨[], false, ⟨none, none, none⟩⟩ "m" true (.ok "x") "T").providerCalled =
        false ∧
      (generate_queries ⟨[], false, ⟨none, none, none⟩⟩ "m" true (.ok "x") "T").appendedRecord =
        none ∧
      (generate_queries ⟨[], false, ⟨none, none, none⟩⟩ "m" true (.ok "x") "T").world.fs =
        ensure_files (load_env ⟨[], false, ⟨none, none, none⟩⟩).fs) :=
  ⟨Or.inl (by decide), c8_theorem _ "m" true (.ok "x") "T" (Or.inl (by decide))⟩

/-- C4 (amended): whenever `generate_queries` appends a record, the record's
raw-text field is the newline-join of the parsed queries — a reconstruction,
not the provider's raw output — its query sequence is `parse_queries` of the
stripped provider output in parse order, which can repeat a string, and its
content-hash field is the sha256 of that join (None for an empty list). -/
theorem c4_theorem (w : World) (model : String) (include_previous : Bool)
    (provider : Except Unit String) (ts : String) (r : LogRecord)
    (h : (generate_queries w model include_previous provider ts).appendedRecord = some r) :
    r.raw = joinNL r.queries ∧
    (∃ outAttr, provider = .ok outAttr ∧ r.queries = parse_queries (pyStrip outAttr)) ∧
    r.queries_sha256 = (if r.queries ≠ [] then some (sha256hex r.raw) else none) ∧
    r.ts = ts ++ "Z" ∧ r.model = model := by
  simp only [generate_queries] at h
  split at h
  · exact absurd h (by simp)
  · split at h
    · exact absurd h (by simp)
    · split at h
      · exact absurd h (by simp)
      · split at h
        · exact absurd h (by simp)
        · rename_i outAttr hneStrip
          simp only [log_openai_response, Option.some.injEq] at h
          subst h
          exact ⟨rfl, ⟨outAttr, rfl, rfl⟩, rfl, rfl, rfl⟩
/-- A world with the API key configured and empty data files, used as the
concrete state for the generator claims. -/
def genWorld : World :=
  { env := [("OPENAI_API_KEY", "k")], envLoaded := true,
    fs := { dotenv := none, previousQueries := some "", responsesLog := some "" } }

/-- C4 counterexample: with provider output `["a", "a"]` (a JSON array
repeating one string), the appended record's query list contains the same
string twice — not a sequence of distinct strings — and its raw field is the
newline-join `"a\na"`, not the provider's raw output text. -/
theorem c4_counterexample :
    ∃ r, (generate_queries genWorld "m" false (.ok "[\"a\", \"a\"]") "T").appendedRecord
        = some r ∧
      r.queries = ["a", "a"] ∧
      ¬ r.queries.Nodup ∧
      r.raw = "a\na" ∧
      r.raw ≠ "[\"a\", \"a\"]" := by
  refine ⟨_, rfl, by decide, by decide, by decide, by decide⟩

/-- C4 witness: the amended theorem applied to the concrete duplicate-output
call. -/
theorem c4_witness :
    ∃ r, (generate_queries genWorld "m" false (.ok "[\"a\", \"a\"]") "T").appendedRecord
        = some r ∧
      (r.raw = joinNL r.queries ∧
        (∃ outAttr, (Except.ok "[\"a\", \"a\"]" : Except Unit String) = .ok outAttr ∧
          r.queries = parse_queries (pyStrip outAttr)) ∧
        r.queries_sha256 = (if r.queries ≠ [] then some (sha256hex r.raw) else none) ∧
        r.ts = "T" ++ "Z" ∧ r.model = "m") :=
  ⟨_, rfl, c4_theorem genWorld "m" false (.ok "[\"a\", \"a\"]") "T" _ rfl⟩

/-- The environment loader never touches the file system. -/
theorem load_env_fs (w : World) : (load_env w).fs = w.fs := by
  unfold load_env
  split
  · rfl
  · split <;> rfl

/-- C7: one `generate_queries` call appends exactly one serialized record
line to the responses log when it returns normally (a record is appended if
and only if the result is a success), appends nothing on any failure path,
and — beyond `ensure_files` filling in missing empty files — changes no
other file. -/
theorem c7_theorem (w : World) (model : String) (include_previous : Bool)
    (provider : Except Unit String) (ts : String) :
    ((generate_queries w model include_previous provider ts).result.isOk = true ↔
      ∃ r, (generate_queries w model include_previous provider ts).appendedRecord = some r) ∧
    (generate_queries w model include_previous provider ts).world.fs =
      { ensure_files (load_env w).fs with
          responsesLog := some (((ensure_files (load_env w).fs).responsesLog.getD "") ++
            (match (generate_queries w model include_previous provider ts).appendedRecord with
             | some r => jsonDumpsRecord r ++ "\n"
             | none => "")) } ∧
    (generate_queries w model include_previous provider ts).world.fs.previousQueries =
      some ((load_env w).fs.previousQueries.getD "") ∧
    (generate_queries w model include_previous provider ts).world.fs.dotenv = w.fs.dotenv := by
  have hdt : (ensure_files (load_env w).fs).dotenv = w.fs.dotenv := by
    simp [ensure_files, load_env_fs]
  simp only [generate_queries]
  split
  · refine ⟨by simp [Except.isOk, Except.toBool], ?_, rfl, hdt⟩
    simp [ensure_files, String.append_empty]
  · split
    · refine ⟨by simp [Except.isOk, Except.toBool], ?_, rfl, hdt⟩
      simp [ensure_files, String.append_empty]
    · split
      · refine ⟨by simp [Except.isOk, Except.toBool], ?_, rfl, hdt⟩
        simp [ensure_files, String.append_empty]
      · split
        · refine ⟨by simp [Except.isOk, Except.toBool], ?_, rfl, hdt⟩
          simp [ensure_files, String.append_empty]
        · refine ⟨by simp [Except.isOk, Except.toBool], ?_, rfl, hdt⟩
          simp [log_openai_response, ensure_files, String.append_assoc]

/-- C10: `load_prompt` carries no base instruction text — with
`include_recent = false`, or when the log yields no recent queries, it
returns the empty string, so `generate_queries` sends an empty prompt text
to the provider in those cases; when recent queries exist it returns only
the do-not-repeat block, one `"- "`-prefixed line per recent query. -/
theorem c10_theorem (logText : String) (w : World) (model : String)
    (provider : Except Unit String) (ts : String) :
    load_prompt logText false = .ok "" ∧
    (get_recent_queries logText 200 = .ok [] → load_prompt logText true = .ok "") ∧
    (∀ recent, get_recent_queries logText 200 = .ok recent → recent ≠ [] →
      load_prompt logText true =
        .ok ("\n\nPreviously suggested queries (do not repeat):\n" ++
          joinNL (recent.map (fun q => "- " ++ pyStrOf q)))) ∧
    ((generate_queries w model false provider ts).providerCalled = true →
      (generate_queries w model false provider ts).promptSent = some "") := by
  refine ⟨rfl, ?_, ?_, ?_⟩
  · intro h
    simp only [load_prompt, if_pos]
    rw [h]
    simp
  · intro recent h hne
    simp only [load_prompt, if_pos]
    rw [h]
    simp [hne]
  · simp only [generate_queries]
    split
    · intro hpc; exact absurd hpc (by simp)
    · split
      · intro hpc; exact absurd hpc (by simp)
      · rename_i prompt heq
        have hp : prompt = "" := by
          have : (Except.ok "" : Except PyErr String) = Except.ok prompt := heq.symm ▸ rfl
          simpa using this.symm
        subst hp
        split
        · intro _; rfl
        · split
          · intro _; rfl
          · intro _; rfl

/-- C10 witness: the theorem applied to a one-record log and to a provider
call with the key configured. -/
theorem c10_witness :
    load_prompt "\x7b\"queries\": [\"a\"]\x7d" false = .ok "" ∧
    (get_recent_queries "\x7b\"queries\": [\"a\"]\x7d" 200 = .ok [PyVal.str "a"] ∧
      [PyVal.str "a"] ≠ ([] : List PyVal) ∧
      load_prompt "\x7b\"queries\": [\"a\"]\x7d" true =
        .ok ("\n\nPreviously suggested queries (do not repeat):\n" ++
          joinNL ([PyVal.str "a"].map (fun q => "- " ++ pyStrOf q)))) ∧
    ((generate_queries genWorld "m" false (.ok "x") "T").providerCalled = true ∧
      (generate_queries genWorld "m" false (.ok "x") "T").promptSent = some "") :=
  ⟨( c10_theorem "\x7b\"queries\": [\"a\"]\x7d" genWorld "m" (.ok "x") "T").1,
   ⟨by decide, by decide,
    ( c10_theorem "\x7b\"queries\": [\"a\"]\x7d" genWorld "m" (.ok "x") "T").2.2.1
      [PyVal.str "a"] (by decide) (by decide)⟩,
   by decide,
   ( c10_theorem "\x7b\"queries\": [\"a\"]\x7d" genWorld "m" (.ok "x") "T").2.2.2 (by decide)⟩

/-- The search loop consumes videos strictly in page order until the limit
or exhaustion: it returns the first `limit` videos of the concatenated
pages, mapped to result dictionaries. -/
theorem searchLoop_spec (limit : Int) (acc : List SearchItem) (pending : List Video)
    (pages : List (List Video)) :
    searchLoop limit acc pending pages =
      acc ++ ((pending ++ pages.flatten).take (limit.toNat - acc.length)).map mkSearchItem := by
  induction acc, pending, pages using searchLoop.induct limit with
  | case1 acc pending pages hge =>
    have h0 : limit.toNat - acc.length = 0 := by omega
    rw [searchLoop.eq_def, if_pos hge, h0]
    simp
  | case2 acc hlt =>
    rw [searchLoop.eq_def, if_neg hlt]
    simp
  | case3 acc hlt p ps ih =>
    rw [searchLoop.eq_def, if_neg hlt]
    simp only []
    rw [ih]
    simp
  | case4 acc hlt v rest pgs ih =>
    rw [searchLoop.eq_def, if_neg hlt]
    simp only []
    rw [ih]
    have hk : limit.toNat - acc.length = (limit.toNat - (acc.length + 1)) + 1 := by omega
    rw [hk]
    simp [List.take_succ_cons, List.append_assoc]

/-- C9: `search_youtube` returns at most `limit` results, preserving the
external source's ranking order (it is exactly the first `limit` videos of
the concatenated result pages, in order), and an empty query or
non-positive limit yields the empty sequence without contacting the
external search capability. -/
theorem c9_theorem (query : String) (limit : Int) (pages : List (List Video)) :
    (query = "" → ∀ available, search_youtube query limit available pages = .ok ([], false)) ∧
    (query ≠ "" → limit ≤ 0 → search_youtube query limit true pages = .ok ([], false)) ∧
    (query ≠ "" → 0 < limit →
      search_youtube query limit true pages =
        .ok ((pages.flatten.take limit.toNat).map mkSearchItem, true) ∧
      (((pages.flatten.take limit.toNat).map mkSearchItem).length : Int) ≤ limit) := by
  refine ⟨?_, ?_, ?_⟩
  · intro hq available
    simp [search_youtube, hq]
  · intro hq hle
    simp [search_youtube, hq, hle]
  · intro hq hpos
    constructor
    · have hnle : ¬ limit ≤ 0 := by omega
      simp only [search_youtube, if_neg hq, if_neg hnle]
      rw [searchLoop_spec]
      simp
    · have : ((pages.flatten.take limit.toNat).map mkSearchItem).length ≤ limit.toNat := by
        simp [List.length_take]
      omega

/-- C9 witness: the theorem applied to a two-page source with limit 2. -/
theorem c9_witness :
    (("x" : String) ≠ "" ∧ (0 : Int) < 2) ∧
    ((("" : String) = "" → ∀ available,
        search_youtube "" 2 available [[⟨"a", "ua", "ia"⟩]] = .ok ([], false)) ∧
      (("x" : String) ≠ "" → (2 : Int) ≤ 0 →
        search_youtube "x" 2 true [[⟨"a", "ua", "ia"⟩]] = .ok ([], false)) ∧
      (("x" : String) ≠ "" → (0 : Int) < 2 →
        search_youtube "x" 2 true [[⟨"a", "ua", "ia"⟩], [⟨"b", "ub", "ib"⟩, ⟨"c", "uc", "ic"⟩]] =
          .ok ((([[⟨"a", "ua", "ia"⟩], [⟨"b", "ub", "ib"⟩,
              ⟨"c", "uc", "ic"⟩]] : List (List Video)).flatten.take (2 : Int).toNat).map
            mkSearchItem, true) ∧
        (((([[⟨"a", "ua", "ia"⟩], [⟨"b", "ub", "ib"⟩,
              ⟨"c", "uc", "ic"⟩]] : List (List Video)).flatten.take (2 : Int).toNat).map
            mkSearchItem).length : Int) ≤ 2)) :=
  ⟨⟨by decide, by decide⟩,
   ⟨( c9_theorem "" 2 [[⟨"a", "ua", "ia"⟩]]).1,
    ( c9_theorem "x" 2 [[⟨"a", "ua", "ia"⟩]]).2.1,
    ( c9_theorem "x" 2 [[⟨"a", "ua", "ia"⟩], [⟨"b", "ub", "ib"⟩, ⟨"c", "uc", "ic"⟩]]).2.2⟩⟩

/-- The reference scan collects the first-occurrence deduplication of the
stream, truncated at the limit. -/
theorem refScan_spec (limit : Int) (l : List PyVal) :
    ∀ seen acc, (acc.length : Int) < limit →
    refScan limit seen acc l = acc ++ (ddkfAux seen l).take (limit.toNat - acc.length) := by
  induction l with
  | nil => intro seen acc hlt; simp [refScan, ddkfAux]
  | cons q rest ih =>
    intro seen acc hlt
    by_cases hmem : q ∈ seen
    · rw [refScan, if_pos hmem, ddkfAux, if_pos hmem]
      exact ih seen acc hlt
    · rw [refScan, if_neg hmem, ddkfAux, if_neg hmem]
      simp only []
      by_cases hge : ((acc ++ [q]).length : Int) ≥ limit
      · rw [if_pos hge]
        have hk : limit.toNat - acc.length = 1 := by
          simp at hge
          omega
        rw [hk, List.take_succ_cons, List.take_zero]
      · rw [if_neg hge]
        rw [ih (q :: seen) (acc ++ [q]) (by simpa using hge)]
        have hk : limit.toNat - acc.length = (limit.toNat - (acc ++ [q]).length) + 1 := by
          simp at hge ⊢
          omega
        rw [hk, List.take_succ_cons]
        simp

/-- First-occurrence deduplication never repeats a value and avoids the
already-seen set. -/
theorem ddkfAux_nodup (l : List PyVal) :
    ∀ seen, (ddkfAux seen l).Nodup ∧ ∀ x ∈ ddkfAux seen l, x ∉ seen := by
  induction l with
  | nil => intro seen; simp [ddkfAux]
  | cons q rest ih =>
    intro seen
    by_cases hmem : q ∈ seen
    · rw [ddkfAux, if_pos hmem]
      exact ih seen
    · rw [ddkfAux, if_neg hmem]
      obtain ⟨hnd, hni⟩ := ih (q :: seen)
      refine ⟨List.nodup_cons.mpr ⟨?_, hnd⟩, ?_⟩
      · intro hq
        exact absurd (List.mem_cons_self q seen) (hni q hq)
      · intro x hx
        rcases List.mem_cons.mp hx with hx | hx
        · rw [hx]; exact hmem
        · intro hxs
          exact absurd (List.mem_cons_of_mem q hxs) (hni x hx)

/-- Deduplication only returns values of the input stream. -/
theorem ddkfAux_subset (l : List PyVal) :
    ∀ seen x, x ∈ ddkfAux seen l → x ∈ l := by
  induction l with
  | nil => intro seen x hx; simp [ddkfAux] at hx
  | cons q rest ih =>
    intro seen x hx
    by_cases hmem : q ∈ seen
    · rw [ddkfAux, if_pos hmem] at hx
      exact List.mem_cons_of_mem _ (ih seen x hx)
    · rw [ddkfAux, if_neg hmem] at hx
      rcases List.mem_cons.mp hx with hx | hx
      · rw [hx]; exact List.mem_cons_self _ _
      · exact List.mem_cons_of_mem _ (ih (q :: seen) x hx)

/-- One record's inner loop agrees with the flattened reference scan: on an
early return the final list is already determined; otherwise the reference
scan continues from the updated accumulators, still under the limit. -/
theorem grqScanQ_spec (limit : Int) (qs : List PyVal) :
    ∀ seen recent seen' recent' flag,
    (recent.length : Int) < limit →
    grqScanQ limit seen recent qs = .ok (seen', recent', flag) →
    (flag = true → ∀ tail, refScan limit seen recent (qs ++ tail) = recent') ∧
    (flag = false → (recent'.length : Int) < limit ∧
      ∀ tail, refScan limit seen recent (qs ++ tail) = refScan limit seen' recent' tail) := by
  induction qs with
  | nil =>
    intro seen recent seen' recent' flag hlt h
    simp only [grqScanQ, Except.ok.injEq, Prod.mk.injEq] at h
    obtain ⟨h1, h2, h3⟩ := h
    subst h1; subst h2; subst h3
    constructor
    · intro hft; exact absurd hft (by simp)
    · intro _; exact ⟨hlt, fun tail => rfl⟩
  | cons q rest ih =>
    intro seen recent seen' recent' flag hlt h
    rw [grqScanQ] at h
    by_cases hhash : pyHashable q = false
    · rw [if_pos hhash] at h; exact absurd h (by simp)
    · rw [if_neg hhash] at h
      by_cases hmem : q ∈ seen
      · rw [if_pos hmem] at h
        have hres := ih seen recent seen' recent' flag hlt h
        constructor
        · intro hft tail
          rw [List.cons_append, refScan, if_pos hmem]
          exact hres.1 hft tail
        · intro hff
          obtain ⟨ha, hb⟩ := hres.2 hff
          refine ⟨ha, fun tail => ?_⟩
          rw [List.cons_append, refScan, if_pos hmem]
          exact hb tail
      · rw [if_neg hmem] at h
        simp only [] at h
        by_cases hge : (((recent ++ [q]).length : Int) ≥ limit)
        · rw [if_pos hge] at h
          simp only [Except.ok.injEq, Prod.mk.injEq] at h
          obtain ⟨h1, h2, h3⟩ := h
          subst h1; subst h2; subst h3
          constructor
          · intro _ tail
            rw [List.cons_append, refScan, if_neg hmem]
            simp only []
            rw [if_pos hge]
          · intro hff; exact absurd hff (by simp)
        · rw [if_neg hge] at h
          have hlt' : ((recent ++ [q]).length : Int) < limit := by
            simp only [not_le] at hge
            exact hge
          have hres := ih (q :: seen) (recent ++ [q]) seen' recent' flag hlt' h
          constructor
          · intro hft tail
            rw [List.cons_append, refScan, if_neg hmem]
            simp only []
            rw [if_neg hge]
            exact hres.1 hft tail
          · intro hff
            obtain ⟨ha, hb⟩ := hres.2 hff
            refine ⟨ha, fun tail => ?_⟩
            rw [List.cons_append, refScan, if_neg hmem]
            simp only []
            rw [if_neg hge]
            exact hb tail

/-- The most-recent-first occurrence stream contributed by a list of lines. -/
def streamOf (lines : List String) : List PyVal :=
  (lines.map (fun l => (recordQueries l).reverse)).flatten

/-- The line loop of `get_recent_queries` agrees with the reference scan
over the flattened occurrence stream whenever it returns normally. -/
theorem grqScanLines_spec (limit : Int) (lines : List String) :
    ∀ seen recent r, (recent.length : Int) < limit →
    grqScanLines limit seen recent lines = .ok r →
    r = refScan limit seen recent (streamOf lines) := by
  induction lines with
  | nil =>
    intro seen recent r hlt h
    simp only [grqScanLines, Except.ok.injEq] at h
    subst h
    simp [streamOf, refScan]
  | cons line rest ih =>
    intro seen recent r hlt h
    rw [grqScanLines] at h
    cases hjl : jsonLoads line with
    | none =>
      rw [hjl] at h
      rw [ih seen recent r hlt h]
      simp [streamOf, recordQueries, hjl]
    | some obj =>
      rw [hjl] at h
      simp only [] at h
      cases hgi : getQueriesIterable obj with
      | error e => rw [hgi] at h; exact absurd h (by simp)
      | ok qs =>
        rw [hgi] at h
        simp only [] at h
        have hstream : streamOf (line :: rest) = qs.reverse ++ streamOf rest := by
          simp [streamOf, recordQueries, hjl, hgi]
        cases hsq : grqScanQ limit seen recent qs.reverse with
        | error e => rw [hsq] at h; exact absurd h (by simp)
        | ok res =>
          obtain ⟨seen', recent', flag⟩ := res
          rw [hsq] at h
          have hq := grqScanQ_spec limit qs.reverse seen recent seen' recent' flag hlt hsq
          cases flag with
          | true =>
            simp only [Except.ok.injEq] at h
            subst h
            rw [hstream]
            exact (hq.1 rfl (streamOf rest)).symm
          | false =>
            obtain ⟨hlt', hcomp⟩ := hq.2 rfl
            rw [ih seen' recent' r hlt' h, hstream]
            exact (hcomp (streamOf rest)).symm

/-- C3 (amended): for every log content and every limit of at least one,
whenever `get_recent_queries` returns normally its result is exactly the
first-occurrence deduplication of the most-recent-first occurrence stream
truncated at `limit` — hence it has no duplicates, has length at most
`limit`, is ordered most-recent-first with each value placed by its most
recent occurrence, and every returned value occurs in the queries of some
log line. -/
theorem c3_theorem (logText : String) (limit : Int) (hlim : 1 ≤ limit) (r : List PyVal)
    (h : get_recent_queries logText limit = .ok r) :
    r = (dedupKeepFirst (recencyStream logText)).take limit.toNat ∧
    r.Nodup ∧
    (r.length : Int) ≤ limit ∧
    (∀ q ∈ r, ∃ line ∈ splitlines logText, q ∈ recordQueries line) := by
  have h0 : ((([] : List PyVal)).length : Int) < limit := by
    simp only [List.length_nil, Int.natCast_zero]
    omega
  have hmain := grqScanLines_spec limit ((splitlines logText).reverse) [] [] r h0 h
  have hstr : streamOf ((splitlines logText).reverse) = recencyStream logText := rfl
  have heq : r = (dedupKeepFirst (recencyStream logText)).take limit.toNat := by
    rw [hmain, hstr, refScan_spec limit _ [] [] h0]
    simp [dedupKeepFirst]
  have hnd : (dedupKeepFirst (recencyStream logText)).Nodup :=
    (ddkfAux_nodup (recencyStream logText) []).1
  refine ⟨heq, ?_, ?_, ?_⟩
  · rw [heq]
    exact List.Nodup.sublist (List.take_sublist _ _) hnd
  · rw [heq]
    have hle : ((dedupKeepFirst (recencyStream logText)).take limit.toNat).length ≤ limit.toNat :=
      (List.length_take _ _).trans_le (min_le_left _ _)
    omega
  · intro q hq
    rw [heq] at hq
    have hq1 : q ∈ dedupKeepFirst (recencyStream logText) := List.mem_of_mem_take hq
    have hq2 : q ∈ recencyStream logText := ddkfAux_subset _ [] q hq1
    have hq3 := List.mem_flatten.mp hq2
    obtain ⟨piece, hpiece, hqp⟩ := hq3
    obtain ⟨line, hline, rfl⟩ := List.mem_map.mp hpiece
    exact ⟨line, List.mem_reverse.mp hline, List.mem_reverse.mp (by simpa using hqp)⟩

/-- C3 counterexample: with `limit = 0` (and any non-positive limit), the
early return fires only after the first append, so a one-record log returns
one query and the bound "length at most limit" fails. -/
theorem c3_counterexample :
    ∃ r, get_recent_queries "\x7b\"queries\": [\"a\"]\x7d" 0 = .ok r ∧
      ¬ ((r.length : Int) ≤ 0) :=
  ⟨[PyVal.str "a"], by decide, by decide⟩

/-- C3 witness: the amended theorem applied to a two-record log with
limit 2. -/
theorem c3_witness :
    ((1 : Int) ≤ 2 ∧
      get_recent_queries "\x7b\"queries\": [\"a\", \"b\"]\x7d\n\x7b\"queries\": [\"b\", \"c\"]\x7d" 2 =
        .ok [PyVal.str "c", PyVal.str "b"]) ∧
    ([PyVal.str "c", PyVal.str "b"] =
        (dedupKeepFirst (recencyStream
          "\x7b\"queries\": [\"a\", \"b\"]\x7d\n\x7b\"queries\": [\"b\", \"c\"]\x7d")).take (2 : Int).toNat ∧
      ([PyVal.str "c", PyVal.str "b"] : List PyVal).Nodup ∧
      (([PyVal.str "c", PyVal.str "b"] : List PyVal).length : Int) ≤ 2 ∧
      (∀ q ∈ ([PyVal.str "c", PyVal.str "b"] : List PyVal),
        ∃ line ∈ splitlines "\x7b\"queries\": [\"a\", \"b\"]\x7d\n\x7b\"queries\": [\"b\", \"c\"]\x7d",
          q ∈ recordQueries line)) :=
  ⟨⟨by decide, by decide⟩,
   c3_theorem "\x7b\"queries\": [\"a\", \"b\"]\x7d\n\x7b\"queries\": [\"b\", \"c\"]\x7d" 2
     (by decide) [PyVal.str "c", PyVal.str "b"] (by decide)⟩
